import Mathlib

/-
Verification development for the logroller rolling-file writer
(repository fawkesLi-lhh/logroller, src/lib.rs).

The Rust source is shallowly embedded as executable Lean definitions:

* chrono date-times with a fixed offset are modelled as the whole number of
  seconds of their local (offset-adjusted) naive date-time since the epoch;
  adding a chrono Duration adds the corresponding number of seconds, and
  calendar field accessors and flooring are computed from that count
  (sub-second precision is dropped; it is irrelevant to the whole-second
  arithmetic verified here);
* the filesystem is modelled as a flat association of path strings to
  inode numbers and of inode numbers to byte lists, so that a renamed file
  keeps its inode and an open handle (an inode number) follows the rename;
* fallible I/O primitives take explicit oracle records saying which
  underlying operations succeed, so every reachable control path of the
  source is a value of the model.
-/

namespace Logroller

/-- Rust Result, with its two constructors in source order. -/
inductive RResult (ε : Type) (α : Type) where
  | ok (val : α)
  | err (e : ε)
deriving DecidableEq, Repr

/-- Source enum RotationAge (lib.rs:48-53). -/
inductive RotationAge where
  | Minutely
  | Hourly
  | Daily
deriving DecidableEq, Repr

/-- Source enum RotationSize (lib.rs:12-18). -/
inductive RotationSize where
  | Bytes (b : Nat)
  | KB (kb : Nat)
  | MB (mb : Nat)
  | GB (gb : Nat)
deriving DecidableEq, Repr

/-- Source RotationSize::bytes (lib.rs:20-29). -/
def RotationSize.bytes : RotationSize → Nat
  | .Bytes b => b
  | .KB kb => kb * 1024
  | .MB mb => mb * 1024 * 1024
  | .GB gb => gb * 1024 * 1024 * 1024

/-- Source enum Rotation (lib.rs:55-59). -/
inductive Rotation where
  | SizeBased (s : RotationSize)
  | AgeBased (a : RotationAge)
deriving DecidableEq, Repr

/-- Source enum Compression (lib.rs:31-39). -/
inductive Compression where
  | Gzip
  | Bzip2
  | LZ4
  | Zstd
  | XZ
  | Snappy
deriving DecidableEq, Repr

/-- Source enum LogRollerError (lib.rs:424-444); error payloads that are
formatted strings in the source are kept as strings. -/
inductive LogRollerError where
  | CreateDirectoryFailed (msg : String)
  | CreateFileFailed (msg : String)
  | GetNaiveTimeFailed
  | InvalidRotationType
  | GetNextFilePathError
  | RenameFileError
  | FileIOError (msg : String)
  | ShouldNotRotate
  | InternalError (msg : String)
deriving DecidableEq, Repr

/- A chrono DateTime with fixed offset is modelled as plain Int: the
local-naive seconds since the epoch (negative values are times before the
epoch; Int division below is Euclidean, which for the positive divisors used
here is floor division, matching calendar truncation also before the
epoch). The DateTimeSec namespace collects its field accessors. -/

/-- Hour-of-day accessor of the seconds model (chrono Timelike::hour). -/
def DateTimeSec.hour (d : Int) : Int := (d / 3600) % 24

/-- Minute-of-hour accessor of the seconds model (chrono Timelike::minute). -/
def DateTimeSec.minute (d : Int) : Int := (d / 60) % 60

/-- chrono NaiveTime::from_hms_opt: valid when the hour is below 24 and
minute and second below 60; the result is the time of day in seconds.
(The source passes u32 values, hence the non-negativity guards.) -/
def NaiveTime.from_hms_opt (h m s : Int) : Option Int :=
  if 0 ≤ h ∧ h < 24 ∧ 0 ≤ m ∧ m < 60 ∧ 0 ≤ s ∧ s < 60 then
    some (h * 3600 + m * 60 + s)
  else none

/-- Source LogRollerMeta::replace_time (lib.rs:153-163): keep the date part
of base_datetime (date_naive) and substitute the given time of day, keeping
the offset. In the seconds model: floor to the local day boundary, then add
the replacement time of day. -/
def replace_time (base_datetime : Int) (time_to_replaced : Int) : Int :=
  86400 * (base_datetime / 86400) + time_to_replaced

/-- Source LogRollerMeta::next_time (lib.rs:165-195). The source method
takes &self but reads no field of self; the receiver is dropped here. -/
def next_time (base_datetime : Int) (rotation_age : RotationAge) :
    RResult LogRollerError Int :=
  match rotation_age with
  | .Minutely =>
    let d := base_datetime + 60
    match NaiveTime.from_hms_opt (DateTimeSec.hour d) (DateTimeSec.minute d) 0 with
    | some t => .ok (replace_time d t)
    | none => .err .GetNaiveTimeFailed
  | .Hourly =>
    let d := base_datetime + 3600
    match NaiveTime.from_hms_opt (DateTimeSec.hour d) 0 0 with
    | some t => .ok (replace_time d t)
    | none => .err .GetNaiveTimeFailed
  | .Daily =>
    let d := base_datetime + 86400
    match NaiveTime.from_hms_opt 0 0 0 with
    | some t => .ok (replace_time d t)
    | none => .err .GetNaiveTimeFailed

/-- Modelled from the spec: the length of one granularity unit in seconds. -/
def granularity_unit_seconds : RotationAge → Int
  | .Minutely => 60
  | .Hourly => 3600
  | .Daily => 86400

/-- Modelled from the spec: floor_to_granularity truncates a time to the
start of its minute, hour, or day (seconds zeroed for minutely, minutes and
seconds zeroed for hourly, time-of-day zeroed for daily). -/
def floor_to_granularity (g : RotationAge) (t : Int) : Int :=
  granularity_unit_seconds g * (t / granularity_unit_seconds g)

/-- Character-list based model of str::starts_with on a literal. -/
def startsWithStr (s p : String) : Bool := p.data.isPrefixOf s.data

/-- Character-list based model of str::strip of a literal (Option result:
the remainder when p is an initial segment of s). -/
def stripPrefixStr (s p : String) : Option String :=
  if p.data.isPrefixOf s.data then some (String.mk (s.data.drop p.data.length)) else none

/-- Character-list based model of str::ends_with on a literal. -/
def endsWithStr (s p : String) : Bool := p.data.isSuffixOf s.data

/-- Drop the last n characters of a string. -/
def dropRightStr (s : String) (n : Nat) : String :=
  String.mk (s.data.take (s.data.length - n))

/-- Value of a decimal digit character. -/
def digitVal (c : Char) : Option Nat :=
  if c.isDigit then some (c.toNat - 48) else none

/-- Consume decimal digits into an accumulator, failing on any other
character. -/
def parseDigits : Nat → List Char → Option Nat
  | acc, [] => some acc
  | acc, c :: cs =>
    match digitVal c with
    | some dv => parseDigits (acc * 10 + dv) cs
    | none => none

/-- Rust str::parse::<usize>(): an optional leading plus sign followed by
one or more decimal digits. Overflow beyond usize::MAX is not modelled (the
claims exercise no suffix anywhere near it). -/
def parseUsize (s : String) : Option Nat :=
  match s.data with
  | [] => none
  | c :: cs =>
    if c = '+' then
      match cs with
      | [] => none
      | _ => parseDigits 0 cs
    else parseDigits 0 (c :: cs)

/-- Scan result of one directory entry in get_next_size_based_index: the
entry's numeric suffix when the name is filename dot digits (source
lib.rs:86-95: a starts_with guard, then the part after "filename." parsed
as usize). -/
def parsedSuffix (filename exist_file : String) : Option Nat :=
  if startsWithStr exist_file filename then
    match stripPrefixStr exist_file (filename ++ ".") with
    | some suffix_str => parseUsize suffix_str
    | none => none
  else none

/-- One fold step of the directory scan: take the running maximum with the
entry's parsed suffix, if any. -/
def suffixScanStep (filename : String) (max_suffix : Nat) (exist_file : String) : Nat :=
  match parsedSuffix filename exist_file with
  | some suffix => Nat.max max_suffix suffix
  | none => max_suffix

/-- Source LogRollerState::get_next_size_based_index (lib.rs:81-101): scan
the directory entry names and return the maximal parsed suffix plus one
(1 when no entry parses). The directory read is abstracted to the given
list of entry names; an unreadable or missing directory in the source
leaves the running maximum at 0, the same as the empty list here. -/
def get_next_size_based_index (entries : List String) (filename : String) : Nat :=
  entries.foldl (suffixScanStep filename) 0 + 1

/-- Modelled from the spec: the largest suffix of any existing closed
segment, counting both plain segments "filename.N" and compressed segments
"filename.N.gz" (the spec claims suffixes resume at max-existing-suffix
plus one after a restart, including when closed segments were compressed). -/
def spec_max_existing_suffix (entries : List String) (filename : String) : Nat :=
  entries.foldl
    (fun acc e =>
      match stripPrefixStr e (filename ++ ".") with
      | some rest =>
        match parseUsize (if endsWithStr rest ".gz" then dropRightStr rest 3 else rest) with
        | some n => Nat.max acc n
        | none => acc
      | none => acc)
    0

/-- PathBuf::join for the flat path model. -/
def pathJoin (dir file : String) : String := dir ++ "/" ++ file

/-- Association-list lookup (first binding wins). -/
def lookupAssoc {κ : Type} [DecidableEq κ] {β : Type} : List (κ × β) → κ → Option β
  | [], _ => none
  | (k, v) :: rest, key => if k = key then some v else lookupAssoc rest key

/-- Association-list update or insert. -/
def setAssoc {κ : Type} [DecidableEq κ] {β : Type} : List (κ × β) → κ → β → List (κ × β)
  | [], key, v => [(key, v)]
  | (k, w) :: rest, key, v =>
    if k = key then (key, v) :: rest else (k, w) :: setAssoc rest key v

/-- Association-list removal of every binding of a key. -/
def removeAssoc {κ : Type} [DecidableEq κ] {β : Type} : List (κ × β) → κ → List (κ × β)
  | [], _ => []
  | (k, w) :: rest, key =>
    if k = key then removeAssoc rest key else (k, w) :: removeAssoc rest key

/-- Filesystem model for the writer: path names bound to inode numbers and
inode numbers bound to byte contents (bytes as naturals), so that renaming
keeps the inode and an open handle (an inode number) follows the rename. -/
structure FS where
  names : List (String × Nat)
  inodes : List (Nat × List Nat)
  next_inode : Nat
deriving DecidableEq, Repr

/-- Inode currently bound to a path. -/
def FS.inodeOf (fs : FS) (path : String) : Option Nat := lookupAssoc fs.names path

/-- Content of the file at a path, when present. -/
def FS.contentOf (fs : FS) (path : String) : Option (List Nat) :=
  match fs.inodeOf path with
  | some i => lookupAssoc fs.inodes i
  | none => none

/-- std::fs::rename: fails when the oracle flag is false or the source path
is absent; on success the target name is (re)bound to the source inode and
the source name unbound (POSIX semantics: open handles follow the inode). -/
def FS.rename (fs : FS) (oldPath newPath : String) (ok : Bool) : Option FS :=
  if ok then
    match fs.inodeOf oldPath with
    | some i => some { fs with names := setAssoc (removeAssoc fs.names oldPath) newPath i }
    | none => none
  else none

/-- Source LogRollerMeta::create_log_file (lib.rs:197-214), success case:
open with append and create, so an existing path keeps its inode and
content, and a missing path gets a fresh empty inode. Failures (including
the create_dir_all retry path) are injected by the callers through their
oracle flags. -/
def FS.create_log_file (fs : FS) (path : String) : FS × Nat :=
  match fs.inodeOf path with
  | some i => (fs, i)
  | none =>
    ({ names := setAssoc fs.names path fs.next_inode,
       inodes := setAssoc fs.inodes fs.next_inode [],
       next_inode := fs.next_inode + 1 }, fs.next_inode)

/-- Append bytes through an open handle (inode number). -/
def FS.append (fs : FS) (h : Nat) (bytes : List Nat) : FS :=
  match lookupAssoc fs.inodes h with
  | some c => { fs with inodes := setAssoc fs.inodes h (c ++ bytes) }
  | none => fs

/-- std::fs::read_dir over the flat path model: names below the directory,
with the directory part stripped. -/
def FS.dirEntries (fs : FS) (dir : String) : List String :=
  fs.names.filterMap (fun p => stripPrefixStr p.1 (dir ++ "/"))

/-- Source LogRollerState::get_curr_size_based_file_size (lib.rs:103-105):
the metadata length of the file, or 0 when it cannot be read. -/
def get_curr_size_based_file_size (fs : FS) (log_path : String) : Nat :=
  match fs.contentOf log_path with
  | some c => c.length
  | none => 0

/-- Source struct LogRollerMeta (lib.rs:61-70). The time_zone field only
influences the value returned by LogRollerMeta::now(); since the model
passes every now() result in explicitly as an oracle input (already
offset-adjusted local seconds), the field is dropped. -/
structure LogRollerMeta where
  directory : String
  filename : String
  rotation : Rotation
  compression : Option Compression
  max_keep_files : Option Nat
deriving DecidableEq, Repr

/-- Source struct LogRollerState (lib.rs:72-78). -/
structure LogRollerState where
  next_size_based_index : Nat
  next_age_based_time : Int
  curr_file_path : String
  curr_file_size_bytes : Nat
deriving DecidableEq, Repr

/-- Civil date (year, month, day) of a day count since the epoch, by the
standard era-based conversion used by calendar libraries. Only used to
format age-based segment names; no claim reasons about its arithmetic. -/
def civilFromDays (z : Int) : Int × Nat × Nat :=
  let z2 := z + 719468
  let era := z2 / 146097
  let doe := (z2 % 146097).toNat
  let yoe := (doe - doe / 1460 + doe / 36524 - doe / 146096) / 365
  let doy := doe - (365 * yoe + yoe / 4 - yoe / 100)
  let mp := (5 * doy + 2) / 153
  let dd := doy - (153 * mp + 2) / 5 + 1
  let mm := if mp < 10 then mp + 3 else mp - 9
  let yy := era * 400 + Int.ofNat yoe + (if mm ≤ 2 then 1 else 0)
  (yy, mm, dd)

/-- Zero-pad a natural to a minimal width. -/
def padNat (width n : Nat) : String :=
  let s := toString n
  if s.length < width then String.mk (List.replicate (width - s.length) '0') ++ s else s

/-- chrono percent-Y formatting: at least four digits, sign for negative
years. -/
def formatYear (y : Int) : String :=
  if y < 0 then "-" ++ padNat 4 (-y).toNat else padNat 4 y.toNat

/-- The date part YYYY-MM-DD of a local-seconds time. -/
def formatDatePart (t : Int) : String :=
  let cd := civilFromDays (t / 86400)
  formatYear cd.1 ++ "-" ++ padNat 2 cd.2.1 ++ "-" ++ padNat 2 cd.2.2

/-- The hour part HH of a local-seconds time. -/
def formatHourPart (t : Int) : String := padNat 2 ((t / 3600) % 24).toNat

/-- The minute part mm of a local-seconds time. -/
def formatMinutePart (t : Int) : String := padNat 2 ((t / 60) % 60).toNat

/-- Source LogRollerMeta::get_next_age_based_log_path (lib.rs:392-412):
directory/filename.<timestamp>, with the timestamp pattern chosen by the
granularity. -/
def get_next_age_based_log_path (meta : LogRollerMeta) (rotation_age : RotationAge)
    (datetime : Int) : String :=
  let base := pathJoin meta.directory (meta.filename ++ ".")
  match rotation_age with
  | .Minutely =>
    base ++ formatDatePart datetime ++ "-" ++ formatHourPart datetime ++ "-" ++
      formatMinutePart datetime
  | .Hourly => base ++ formatDatePart datetime ++ "-" ++ formatHourPart datetime
  | .Daily => base ++ formatDatePart datetime

/-- Source LogRollerMeta::get_curr_log_path (lib.rs:414-421); now is the
value of the source's meta.now() call. -/
def get_curr_log_path (meta : LogRollerMeta) (now : Int) : String :=
  match meta.rotation with
  | .SizeBased _ => pathJoin meta.directory meta.filename
  | .AgeBased rotation_age => get_next_age_based_log_path meta rotation_age now

/-- Source LogRoller::should_rollover (lib.rs:115-141); now is the value of
the source's meta.now() call in the age branch. -/
def LogRoller.should_rollover (meta : LogRollerMeta) (state : LogRollerState)
    (now : Int) : Option String :=
  match meta.rotation with
  | .SizeBased rotation_size =>
    if state.curr_file_size_bytes ≥ rotation_size.bytes then
      some (pathJoin meta.directory
        (meta.filename ++ "." ++ toString state.next_size_based_index))
    else none
  | .AgeBased rotation_age =>
    let next_t := state.next_age_based_time
    if now ≥ next_t then some (get_next_age_based_log_path meta rotation_age next_t)
    else none

/-- Rust std::sync::PoisonError: it carries the guard of the poisoned lock. -/
structure PoisonErrorT (α : Type) where
  inner : α
deriving DecidableEq, Repr

/-- The RwLock guarding the active file handle: a poisoned flag plus the
protected handle (an inode number). -/
structure RwLockFile where
  poisoned : Bool
  handle : Nat
deriving DecidableEq, Repr

/-- RwLock::get_mut: the protected value, or a PoisonError carrying that
same value when the lock is poisoned. -/
def RwLockFile.get_mut (l : RwLockFile) : RResult (PoisonErrorT Nat) Nat :=
  if l.poisoned then .err ⟨l.handle⟩ else .ok l.handle

/-- PoisonError::into_inner. -/
def PoisonErrorT.into_inner (e : PoisonErrorT Nat) : Nat := e.inner

/-- The source's lock-recovery idiom unwrap_or_else(PoisonError::into_inner)
(lib.rs:521-524, 552-554). -/
def unwrap_or_else_into_inner (r : RResult (PoisonErrorT Nat) Nat) : Nat :=
  match r with
  | .ok v => v
  | .err e => e.into_inner

/-- io::Error as surfaced by LogRoller::write: a wrapped LogRollerError
(io::Error::new(ErrorKind::Other, ...)) or an error of the underlying file
write. -/
inductive WriteIOErr where
  | other (e : LogRollerError)
  | device
deriving DecidableEq, Repr

/-- Outcome of the underlying writer.write(buf) call: full write, short
write of n bytes, or an I/O error (modelled as writing nothing). -/
inductive UnderlyingWrite where
  | success
  | shortWrite (n : Nat)
  | ioFailure
deriving DecidableEq, Repr

/-- Oracle for one LogRoller::write call: the two meta.now() readings and
the success of each fallible filesystem operation on the call's path. -/
structure WriteOracle where
  now : Int
  now2 : Int
  renameOk : Bool
  createOk : Bool
  underlying : UnderlyingWrite
deriving DecidableEq, Repr

/-- Result of one modelled LogRoller::write call: the mutated state, the
filesystem, the active handle after any swap, the path handed to the
fire-and-forget pipeline thread when one was spawned, and the io::Result
returned to the caller. The spawned pipeline itself runs asynchronously and
is modelled separately (compress and prune below). -/
structure WriteOut where
  state : LogRollerState
  fs : FS
  handle : Nat
  spawned : Option String
  res : RResult WriteIOErr Nat
deriving DecidableEq, Repr

/-- Source LogRollerMeta::refresh_writer (lib.rs:326-376). Size branch:
rename the canonical file to the target, then create a fresh canonical
file; a rename failure is returned as RenameFileError, while a create
failure is only logged (the function still returns Ok and the old handle
stays in place, with no pipeline spawned). Age branch: create the new
timestamped file; a create failure again is only logged. The source's
flush of the old writer before the swap is log-only and has no observable
effect in this unbuffered model. -/
def refresh_writer (meta : LogRollerMeta) (fs : FS) (writer : Nat)
    (old_log_path new_log_path : String) (renameOk createOk : Bool) :
    RResult LogRollerError (FS × Nat × Option String) :=
  match meta.rotation with
  | .SizeBased _ =>
    let curr_log_path := pathJoin meta.directory meta.filename
    match fs.rename curr_log_path new_log_path renameOk with
    | none => .err .RenameFileError
    | some fs1 =>
      if createOk then
        let created := fs1.create_log_file curr_log_path
        .ok (created.1, created.2, some new_log_path)
      else
        .ok (fs1, writer, none)
  | .AgeBased _ =>
    if createOk then
      let created := fs.create_log_file new_log_path
      .ok (created.1, created.2, some old_log_path)
    else
      .ok (fs, writer, none)

/-- Source lib.rs:547-548: the size counter grows by the whole buffer
length, then the underlying write is attempted and its result returned. -/
def appendStep (state : LogRollerState) (fs : FS) (handle : Nat)
    (spawned : Option String) (buf : List Nat) (u : UnderlyingWrite) : WriteOut :=
  let state2 :=
    { state with curr_file_size_bytes := state.curr_file_size_bytes + buf.length }
  match u with
  | .success => ⟨state2, fs.append handle buf, handle, spawned, .ok buf.length⟩
  | .shortWrite n =>
    ⟨state2, fs.append handle (buf.take (Nat.min n buf.length)), handle, spawned,
      .ok (Nat.min n buf.length)⟩
  | .ioFailure => ⟨state2, fs, handle, spawned, .err .device⟩

/-- Source lib.rs:538-545, the age branch after a rotation, factored over
the result of the deadline recomputation (the expression behind the source's
question-mark operator): an error is surfaced as the io::Result of the write
call, leaving the deadline unchanged; a success stores the new deadline and
proceeds to the append step. -/
def write_age_after_rotation (state : LogRollerState) (fs : FS) (handle : Nat)
    (spawned : Option String) (buf : List Nat) (u : UnderlyingWrite)
    (recompute : RResult LogRollerError Int) : WriteOut :=
  match recompute with
  | .err e => ⟨state, fs, handle, spawned, .err (.other e)⟩
  | .ok t2 => appendStep { state with next_age_based_time := t2 } fs handle spawned buf u

/-- Source LogRoller::write (lib.rs:519-549): recover the writer from a
possibly poisoned lock, consult should_rollover, refresh the writer when
rotation is due (propagating only refresh errors, i.e. rename failures),
advance the state for the mode in the source's order, and append the buffer
through the (possibly swapped) handle. -/
def LogRoller.write (meta : LogRollerMeta) (state : LogRollerState) (fs : FS)
    (lock : RwLockFile) (buf : List Nat) (o : WriteOracle) : WriteOut :=
  let writer := unwrap_or_else_into_inner lock.get_mut
  let old_log_path := state.curr_file_path
  match LogRoller.should_rollover meta state o.now with
  | none => appendStep state fs writer none buf o.underlying
  | some new_log_path =>
    match refresh_writer meta fs writer old_log_path new_log_path o.renameOk o.createOk with
    | .err e => ⟨state, fs, writer, none, .err (.other e)⟩
    | .ok (fs1, w1, sp) =>
      let state1 := { state with curr_file_path := new_log_path }
      match meta.rotation with
      | .SizeBased _ =>
        let state2 := { state1 with curr_file_size_bytes := 0 }
        appendStep
          { state2 with next_size_based_index := state2.next_size_based_index + 1 }
          fs1 w1 sp buf o.underlying
      | .AgeBased rotation_age =>
        write_age_after_rotation { state1 with curr_file_size_bytes := 0 }
          fs1 w1 sp buf o.underlying (next_time o.now2 rotation_age)

/-- Source LogRoller::flush (lib.rs:551-557): recover the handle from a
possibly poisoned lock and flush it; the oracle gives the underlying
File::flush result per handle. -/
def LogRoller.flush (lock : RwLockFile)
    (flushOutcome : Nat → RResult WriteIOErr Unit) : RResult WriteIOErr Unit :=
  flushOutcome (unwrap_or_else_into_inner lock.get_mut)

/-- Oracle for LogRollerBuilder::build: the meta.now() reading and whether
creating the initial log file succeeds. -/
structure BuildOracle where
  now : Int
  createOk : Bool
deriving DecidableEq, Repr

/-- Source LogRollerBuilder::build (lib.rs:493-516): seed the state (size
index from a directory scan, age deadline from next_time with a Daily
placeholder in size mode, size counter from the canonical file's length)
and open the initial log file behind a fresh lock. -/
def build (meta : LogRollerMeta) (fs : FS) (o : BuildOracle) :
    RResult LogRollerError (LogRollerState × FS × RwLockFile) :=
  let curr_file_path := get_curr_log_path meta o.now
  let idx := get_next_size_based_index (fs.dirEntries meta.directory) meta.filename
  match next_time o.now
      (match meta.rotation with
       | .AgeBased rotation_age => rotation_age
       | _ => .Daily) with
  | .err e => .err e
  | .ok t =>
    let sz := get_curr_size_based_file_size fs (pathJoin meta.directory meta.filename)
    if o.createOk then
      let created := fs.create_log_file curr_file_path
      .ok ({ next_size_based_index := idx, next_age_based_time := t,
             curr_file_path := curr_file_path, curr_file_size_bytes := sz },
           created.1, { poisoned := false, handle := created.2 })
    else .err (.CreateFileFailed "")

/-- File content for the pipeline model: raw bytes, a complete gzip
encoding of some original content (the encoding itself is produced by the
external flate2 library and kept symbolic), or a truncated encoding left
behind by a copy that failed midway. -/
inductive Content where
  | bytes (l : List Nat)
  | gzipOf (c : Content)
  | gzTruncated (c : Content)
deriving DecidableEq, Repr

/-- Pipeline-side view of the directory: paths bound to contents. The
pipeline thread operates by path only, so inodes are not needed here. -/
abbrev PFS := List (String × Content)

/-- Oracle for one compress run: whether opening the closed file, creating
the .gz file, the buffered copy, the encoder finish, and the final remove
succeed. -/
structure GzOracle where
  openOk : Bool
  createOk : Bool
  copyOk : Bool
  finishOk : Bool
  removeOk : Bool
deriving DecidableEq, Repr

/-- Source LogRollerMeta::compress (lib.rs:291-324): no configured
compression is a no-op; Gzip reads the closed file, writes its encoding to
path.gz, and removes the plain file only after the encoder finished; every
other advertised algorithm falls through to an empty match arm. A failed
copy or finish leaves a truncated .gz behind (File::create had already
produced the file); every failure returns the error before the remove. -/
def compress (compression : Option Compression) (log_path : String)
    (fs : PFS) (o : GzOracle) : PFS × RResult LogRollerError Unit :=
  match compression with
  | none => (fs, .ok ())
  | some c =>
    match c with
    | .Gzip =>
      match lookupAssoc fs log_path, o.openOk with
      | none, _ => (fs, .err (.FileIOError "open"))
      | _, false => (fs, .err (.FileIOError "open"))
      | some content, true =>
        if o.createOk then
          let gz_path := log_path ++ ".gz"
          if o.copyOk ∧ o.finishOk then
            let fs1 := setAssoc fs gz_path (.gzipOf content)
            if o.removeOk then (removeAssoc fs1 log_path, .ok ())
            else (fs1, .err (.FileIOError "remove"))
          else (setAssoc fs gz_path (.gzTruncated content), .err (.FileIOError "copy"))
        else (fs, .err (.FileIOError "create"))
    | .Bzip2 => (fs, .ok ())
    | .LZ4 => (fs, .ok ())
    | .Zstd => (fs, .ok ())
    | .XZ => (fs, .ok ())
    | .Snappy => (fs, .ok ())

/-- One directory entry as seen by prune: its name, its filesystem creation
time, and whether it is a regular file. The source aborts the whole prune
when a creation time cannot be read; that read is modelled as always
succeeding. -/
structure DirEntryMeta where
  name : String
  created : Nat
  is_file : Bool
deriving DecidableEq, Repr

/-- Decidable match of the size-mode prune regex (lib.rs:244): filename,
optionally followed by a dot and one or more digits, optionally followed by
".gz". The filename is matched literally; the source splices it verbatim
into the regex, so a filename containing regex metacharacters would widen
the source pattern — a case not modelled and not exercised by any claim. -/
def matchesSizePattern (filename name : String) : Bool :=
  match stripPrefixStr name filename with
  | none => false
  | some rest =>
    if rest = "" then true
    else
      match stripPrefixStr rest "." with
      | none => false
      | some r2 =>
        if r2 = "gz" then true
        else if r2.data ≠ [] ∧ r2.data.all Char.isDigit then true
        else if endsWithStr r2 ".gz" then
          (dropRightStr r2 3).data ≠ [] ∧ (dropRightStr r2 3).data.all Char.isDigit
        else false

/-- Sizes of the dash-separated digit groups in the age-mode timestamp
pattern of lib.rs:247-251. -/
def ageGroupSizes : RotationAge → List Nat
  | .Minutely => [4, 2, 2, 2, 2]
  | .Hourly => [4, 2, 2, 2]
  | .Daily => [4, 2, 2]

/-- Match a list of characters against dash-separated digit groups of the
given sizes, exactly. -/
def matchDigitGroups : List Nat → List Char → Bool
  | [], cs => cs.isEmpty
  | [n], cs => decide (cs.length = n) && cs.all Char.isDigit
  | n :: m :: ns, cs =>
    decide ((cs.take n).length = n) && (cs.take n).all Char.isDigit &&
      (match cs.drop n with
       | '-' :: rest => matchDigitGroups (m :: ns) rest
       | _ => false)

/-- Decidable match of the age-mode prune regex (lib.rs:246-254):
filename dot timestamp, optionally followed by ".gz". -/
def matchesAgePattern (filename : String) (rotation_age : RotationAge)
    (name : String) : Bool :=
  match stripPrefixStr name (filename ++ ".") with
  | none => false
  | some rest =>
    let body := if endsWithStr rest ".gz" then dropRightStr rest 3 else rest
    matchDigitGroups (ageGroupSizes rotation_age) body.data

/-- The rotation-mode naming pattern used by prune (lib.rs:243-255). -/
def prune_file_pattern (filename : String) (rotation : Rotation) (name : String) : Bool :=
  match rotation with
  | .SizeBased _ => matchesSizePattern filename name
  | .AgeBased rotation_age => matchesAgePattern filename rotation_age name

/-- Ordering by filesystem creation time, the sort key of lib.rs:277.
Rust sort_by_key is a stable sort, and a stable sort by key has a unique
result, here produced by insertion sort. -/
def createdLE (a b : DirEntryMeta) : Prop := a.created ≤ b.created

instance : DecidableRel createdLE := fun a b => Nat.decLe a.created b.created

instance : IsTotal DirEntryMeta createdLE := ⟨fun a b => Nat.le_total a.created b.created⟩

instance : IsTrans DirEntryMeta createdLE := ⟨fun _ _ _ => Nat.le_trans⟩

/-- Result of a prune run: the paths on which remove_file was called (in
deletion order), the subset whose removal succeeded (a failure is only
logged and later files are still attempted), and the returned result. -/
structure PruneOut where
  attempted : List String
  deleted : List String
  result : RResult LogRollerError Unit
deriving DecidableEq, Repr

/-- Source LogRollerMeta::prune (lib.rs:231-289): with no retention limit,
return immediately; otherwise keep the regular files matching the rotation
pattern, return early when fewer than the limit exist, sort the matches by
creation time ascending, and remove the first (count minus limit) of them,
logging each failed removal and continuing. The removeOk oracle says which
removals succeed. -/
def prune (files : List DirEntryMeta) (filename : String) (rotation : Rotation)
    (max_keep_files : Option Nat) (removeOk : String → Bool) : PruneOut :=
  match max_keep_files with
  | none => ⟨[], [], .ok ()⟩
  | some keep =>
    let all_files :=
      files.filter (fun f => f.is_file && prune_file_pattern filename rotation f.name)
    if all_files.length < keep then ⟨[], [], .ok ()⟩
    else
      let sorted := List.insertionSort createdLE all_files
      let names := (sorted.take (all_files.length - keep)).map (fun f => f.name)
      ⟨names, names.filter removeOk, .ok ()⟩

/-- Proposition: some entry of the directory scan parses to the suffix n. -/
def suffixParsedIn (entries : List String) (filename : String) (n : Nat) : Prop :=
  ∃ e ∈ entries, parsedSuffix filename e = some n

/-- The spec's concrete size-mode scenario: directory "d", base file "f",
threshold 10 bytes, no compression, no retention limit. -/
def scenarioMeta : LogRollerMeta := ⟨"d", "f", .SizeBased (.Bytes 10), none, none⟩

/-- All-success write oracle for the scenario. -/
def scenarioOracle : WriteOracle := ⟨0, 0, true, true, .success⟩

/-- The scenario's writer as produced by build on an empty directory,
packaged as a WriteOut so write calls can be chained (the err arm is
unreachable: build succeeds on the empty filesystem). -/
def scenarioStart : WriteOut :=
  match build scenarioMeta ⟨[], [], 0⟩ ⟨0, true⟩ with
  | .ok (st, fs, l) => ⟨st, fs, l.handle, none, .ok 0⟩
  | .err _ => ⟨⟨0, 0, "", 0⟩, ⟨[], [], 0⟩, 0, none, .ok 0⟩

/-- Chain one write call of the scenario. -/
def scenarioStep (prev : WriteOut) (buf : List Nat) : WriteOut :=
  LogRoller.write scenarioMeta prev.state prev.fs ⟨false, prev.handle⟩ buf scenarioOracle

/-- The scenario's writer after writing 6 bytes, then 6 bytes, then 1 byte. -/
def scenarioFinal : WriteOut :=
  scenarioStep
    (scenarioStep (scenarioStep scenarioStart [1, 2, 3, 4, 5, 6]) [7, 8, 9, 10, 11, 12])
    [13]

theorem from_hms_opt_hour_minute (d : Int) :
    NaiveTime.from_hms_opt (DateTimeSec.hour d) (DateTimeSec.minute d) 0 =
      some (DateTimeSec.hour d * 3600 + DateTimeSec.minute d * 60) := by
  unfold NaiveTime.from_hms_opt DateTimeSec.hour DateTimeSec.minute
  rw [if_pos]
  · norm_num
  · omega

theorem from_hms_opt_hour_zero (d : Int) :
    NaiveTime.from_hms_opt (DateTimeSec.hour d) 0 0 =
      some (DateTimeSec.hour d * 3600) := by
  unfold NaiveTime.from_hms_opt DateTimeSec.hour
  rw [if_pos]
  · norm_num
  · omega

theorem from_hms_opt_zero :
    NaiveTime.from_hms_opt 0 0 0 = some 0 := by
  unfold NaiveTime.from_hms_opt
  rw [if_pos]
  · norm_num
  · omega

theorem next_time_eq_floor (t : Int) (g : RotationAge) :
    next_time t g = .ok (floor_to_granularity g (t + granularity_unit_seconds g)) := by
  cases g
  case Minutely =>
    simp only [next_time, from_hms_opt_hour_minute]
    congr 1
    simp only [replace_time, DateTimeSec.hour, DateTimeSec.minute,
      floor_to_granularity, granularity_unit_seconds]
    omega
  case Hourly =>
    simp only [next_time, from_hms_opt_hour_zero]
    congr 1
    simp only [replace_time, DateTimeSec.hour,
      floor_to_granularity, granularity_unit_seconds]
    omega
  case Daily =>
    simp only [next_time, from_hms_opt_zero]
    congr 1
    simp only [replace_time, floor_to_granularity, granularity_unit_seconds]
    omega

theorem floor_gt_base (t : Int) (g : RotationAge) :
    t < floor_to_granularity g (t + granularity_unit_seconds g) := by
  cases g <;> simp only [floor_to_granularity, granularity_unit_seconds] <;> omega

/-- C3: in age-based mode, the next rotation deadline computed from any base
time equals floor_to_granularity of (base time + one granularity unit) —
seconds zeroed for minutely, minutes and seconds zeroed for hourly,
time-of-day zeroed for daily — and that deadline is strictly later than the
base time used to compute it. -/
theorem next_time_is_floor_and_strictly_later (t : Int) (g : RotationAge) :
    next_time t g = .ok (floor_to_granularity g (t + granularity_unit_seconds g)) ∧
    t < floor_to_granularity g (t + granularity_unit_seconds g) :=
  ⟨next_time_eq_floor t g, floor_gt_base t g⟩

theorem lookupAssoc_setAssoc_self {κ : Type} [DecidableEq κ] {β : Type}
    (l : List (κ × β)) (k : κ) (v : β) : lookupAssoc (setAssoc l k v) k = some v := by
  induction l with
  | nil => simp [setAssoc, lookupAssoc]
  | cons p rest ih =>
    by_cases h : p.1 = k
    · simp [setAssoc, lookupAssoc, h]
    · simp [setAssoc, lookupAssoc, h, ih]

theorem lookupAssoc_setAssoc_ne {κ : Type} [DecidableEq κ] {β : Type}
    (l : List (κ × β)) (k k2 : κ) (v : β) (h : k2 ≠ k) :
    lookupAssoc (setAssoc l k v) k2 = lookupAssoc l k2 := by
  induction l with
  | nil => simp [setAssoc, lookupAssoc, Ne.symm h]
  | cons p rest ih =>
    by_cases hp : p.1 = k
    · simp [setAssoc, lookupAssoc, hp, Ne.symm h]
    · simp [setAssoc, lookupAssoc, hp, ih]

theorem lookupAssoc_removeAssoc_self {κ : Type} [DecidableEq κ] {β : Type}
    (l : List (κ × β)) (k : κ) : lookupAssoc (removeAssoc l k) k = none := by
  induction l with
  | nil => simp [removeAssoc, lookupAssoc]
  | cons p rest ih =>
    by_cases h : p.1 = k
    · simp [removeAssoc, h, ih]
    · simp [removeAssoc, lookupAssoc, h, ih]

theorem lookupAssoc_removeAssoc_ne {κ : Type} [DecidableEq κ] {β : Type}
    (l : List (κ × β)) (k k2 : κ) (h : k2 ≠ k) :
    lookupAssoc (removeAssoc l k) k2 = lookupAssoc l k2 := by
  induction l with
  | nil => simp [removeAssoc]
  | cons p rest ih =>
    by_cases hp : p.1 = k
    · simp [removeAssoc, lookupAssoc, hp, Ne.symm h, ih]
    · simp [removeAssoc, lookupAssoc, hp, ih]

theorem pathJoin_ne_suffixed (dir f s : String) :
    pathJoin dir f ≠ pathJoin dir (f ++ "." ++ s) := by
  intro h
  have hlen := congrArg String.length h
  have hdot : ("." : String).length = 1 := rfl
  simp only [pathJoin, String.length_append, hdot] at hlen
  omega

theorem append_gz_ne_self (p : String) : p ≠ p ++ ".gz" := by
  intro h
  have hlen := congrArg String.length h
  have hgz : (".gz" : String).length = 3 := rfl
  simp only [String.length_append, hgz] at hlen
  omega

/-- C1: in size-based rotation mode should_rollover signals rotation if and
only if the accumulated size counter (bytes of prior writes only; the
current call's buffer is not yet counted) is at least the threshold, and
the returned target path is directory/filename.{next suffix}; and in the
concrete scenario with threshold 10, writing 6 bytes, then 6 bytes, then 1
byte leaves the renamed segment d/f.1 holding the 12 previously written
bytes and the canonical file d/f holding exactly the 1 new byte. -/
theorem should_rollover_size_iff_and_scenario :
    (∀ (meta : LogRollerMeta) (state : LogRollerState) (now : Int) (rs : RotationSize),
      meta.rotation = .SizeBased rs →
      LogRoller.should_rollover meta state now =
        (if state.curr_file_size_bytes ≥ rs.bytes then
          some (pathJoin meta.directory
            (meta.filename ++ "." ++ toString state.next_size_based_index))
        else none)) ∧
    scenarioFinal.fs.contentOf "d/f.1" =
      some [1, 2, 3, 4, 5, 6, 7, 8, 9, 10, 11, 12] ∧
    (scenarioFinal.fs.contentOf "d/f.1").map List.length = some 12 ∧
    scenarioFinal.fs.contentOf "d/f" = some [13] := by
  refine ⟨?_, by decide, by decide, by decide⟩
  intro meta state now rs hrot
  simp [LogRoller.should_rollover, hrot]

theorem should_rollover_size_iff_and_scenario_witness :
    LogRoller.should_rollover ⟨"d", "f", .SizeBased (.Bytes 10), none, none⟩
      ⟨1, 86400, "d/f", 12⟩ 0 = some "d/f.1" := by
  rw [should_rollover_size_iff_and_scenario.1
    ⟨"d", "f", .SizeBased (.Bytes 10), none, none⟩ ⟨1, 86400, "d/f", 12⟩ 0
    (.Bytes 10) rfl]
  decide

/-- C2 counterexample: at a size-mode writer with threshold 10 and counter
12, when the rename step of rotation fails, the write call returns the
rotation error to the caller and the call's byte is not written anywhere
(the filesystem and state are unchanged) — contradicting the claim that a
rotation failure is only logged and the bytes are still written. -/
theorem write_rename_failure_surfaces_cex :
    (LogRoller.should_rollover ⟨"d", "f", .SizeBased (.Bytes 10), none, none⟩
      ⟨1, 86400, "d/f", 12⟩ 0).isSome = true ∧
    LogRoller.write ⟨"d", "f", .SizeBased (.Bytes 10), none, none⟩
      ⟨1, 86400, "d/f", 12⟩ ⟨[("d/f", 0)], [(0, [1, 2])], 1⟩ ⟨false, 0⟩ [9]
      ⟨0, 0, false, true, .success⟩ =
      ⟨⟨1, 86400, "d/f", 12⟩, ⟨[("d/f", 0)], [(0, [1, 2])], 1⟩, 0, none,
        .err (.other .RenameFileError)⟩ := by
  decide

/-- C2 amended: a failed rename is returned from write as an error and the
bytes of that call are not written and the state is unchanged (so rotation
is retried on the next call); only a failed creation of the fresh file is
logged-and-ignored: then the bytes go through the old handle and write does
not return a rotation error. -/
theorem write_rotation_failure_split (meta : LogRollerMeta) (state : LogRollerState)
    (fs : FS) (lock : RwLockFile) (buf : List Nat) (o : WriteOracle)
    (rs : RotationSize) (i : Nat)
    (hrot : meta.rotation = .SizeBased rs)
    (hdue : rs.bytes ≤ state.curr_file_size_bytes) :
    (o.renameOk = false →
      LogRoller.write meta state fs lock buf o =
        ⟨state, fs, unwrap_or_else_into_inner lock.get_mut, none,
          .err (.other .RenameFileError)⟩ ∧
      LogRoller.should_rollover meta state o.now ≠ none) ∧
    (o.renameOk = true → o.createOk = false →
      fs.inodeOf (pathJoin meta.directory meta.filename) = some i →
      (LogRoller.write meta state fs lock buf o).handle =
        unwrap_or_else_into_inner lock.get_mut ∧
      ∀ e, (LogRoller.write meta state fs lock buf o).res ≠ .err (.other e)) := by
  have hso : LogRoller.should_rollover meta state o.now =
      some (pathJoin meta.directory
        (meta.filename ++ "." ++ toString state.next_size_based_index)) := by
    simp [LogRoller.should_rollover, hrot, hdue]
  constructor
  · intro hrn
    refine ⟨?_, by simp [hso]⟩
    simp [LogRoller.write, hso, refresh_writer, hrot, FS.rename, hrn]
  · intro hrn hcr hi
    simp only [LogRoller.write, hso, refresh_writer, hrot, FS.rename, hrn, if_true,
      FS.inodeOf] at *
    simp only [hi, hcr, Bool.false_eq_true, if_false]
    cases o.underlying <;> simp [appendStep]

theorem write_rotation_failure_split_witness :
    (LogRoller.write ⟨"d", "f", .SizeBased (.Bytes 10), none, none⟩
      ⟨1, 86400, "d/f", 12⟩ ⟨[("d/f", 0)], [(0, [1, 2])], 1⟩ ⟨false, 0⟩ [9]
      ⟨0, 0, true, false, .success⟩).handle = 0 := by
  exact (write_rotation_failure_split ⟨"d", "f", .SizeBased (.Bytes 10), none, none⟩
    ⟨1, 86400, "d/f", 12⟩ ⟨[("d/f", 0)], [(0, [1, 2])], 1⟩ ⟨false, 0⟩ [9]
    ⟨0, 0, true, false, .success⟩ (.Bytes 10) 0 rfl (by decide)).2 rfl rfl
    (by decide) |>.1

theorem unwrap_get_mut (l : RwLockFile) :
    unwrap_or_else_into_inner l.get_mut = l.handle := by
  cases l with
  | mk p h => cases p <;> rfl

/-- C9: in size mode, when the rename succeeds but creating the fresh
canonical file fails, refresh_writer returns success after only logging and
write still advances the state: curr_file_path becomes the suffixed target,
the size counter is reset to zero before growing by the buffer length, the
next suffix is incremented, no pipeline is spawned, and the call's bytes
flow through the retained old handle into the renamed segment; the
canonical path is left unbound, and when the buffer is smaller than the
threshold the next call does not rotate, so the failed creation is not
retried. -/
theorem write_create_failure_advances_state (meta : LogRollerMeta)
    (state : LogRollerState) (fs : FS) (lock : RwLockFile) (buf : List Nat)
    (o : WriteOracle) (rs : RotationSize) (i : Nat) (c : List Nat)
    (hrot : meta.rotation = .SizeBased rs)
    (hdue : rs.bytes ≤ state.curr_file_size_bytes)
    (hrn : o.renameOk = true) (hcr : o.createOk = false)
    (hu : o.underlying = .success)
    (hlock : lock.handle = i)
    (hi : fs.inodeOf (pathJoin meta.directory meta.filename) = some i)
    (hc : lookupAssoc fs.inodes i = some c) :
    (LogRoller.write meta state fs lock buf o).state =
      ⟨state.next_size_based_index + 1, state.next_age_based_time,
        pathJoin meta.directory
          (meta.filename ++ "." ++ toString state.next_size_based_index),
        buf.length⟩ ∧
    (LogRoller.write meta state fs lock buf o).handle = i ∧
    (LogRoller.write meta state fs lock buf o).spawned = none ∧
    (LogRoller.write meta state fs lock buf o).res = .ok buf.length ∧
    (LogRoller.write meta state fs lock buf o).fs.contentOf
      (pathJoin meta.directory
        (meta.filename ++ "." ++ toString state.next_size_based_index)) =
      some (c ++ buf) ∧
    (LogRoller.write meta state fs lock buf o).fs.inodeOf
      (pathJoin meta.directory meta.filename) = none ∧
    (buf.length < rs.bytes →
      LogRoller.should_rollover meta
        (LogRoller.write meta state fs lock buf o).state o.now = none) := by
  have hso : LogRoller.should_rollover meta state o.now =
      some (pathJoin meta.directory
        (meta.filename ++ "." ++ toString state.next_size_based_index)) := by
    simp [LogRoller.should_rollover, hrot, hdue]
  have hunwrap : unwrap_or_else_into_inner lock.get_mut = i := by
    rw [unwrap_get_mut, hlock]
  have hi2 : lookupAssoc fs.names (pathJoin meta.directory meta.filename) = some i := hi
  have hwrite : LogRoller.write meta state fs lock buf o =
      ⟨⟨state.next_size_based_index + 1, state.next_age_based_time,
          pathJoin meta.directory
            (meta.filename ++ "." ++ toString state.next_size_based_index),
          buf.length⟩,
        ⟨setAssoc (removeAssoc fs.names (pathJoin meta.directory meta.filename))
            (pathJoin meta.directory
              (meta.filename ++ "." ++ toString state.next_size_based_index)) i,
          setAssoc fs.inodes i (c ++ buf), fs.next_inode⟩,
        i, none, .ok buf.length⟩ := by
    simp only [LogRoller.write, hso, refresh_writer, hrot, FS.rename, FS.inodeOf,
      hi2, hrn, if_true, hcr, Bool.false_eq_true, if_false, hunwrap, hu,
      appendStep, FS.append, hc, Nat.zero_add]
  rw [hwrite]
  refine ⟨rfl, rfl, rfl, rfl, ?_, ?_, ?_⟩
  · simp only [FS.contentOf, FS.inodeOf, lookupAssoc_setAssoc_self]
  · show lookupAssoc
      (setAssoc (removeAssoc fs.names (pathJoin meta.directory meta.filename))
        (pathJoin meta.directory
          (meta.filename ++ "." ++ toString state.next_size_based_index)) i)
      (pathJoin meta.directory meta.filename) = none
    rw [lookupAssoc_setAssoc_ne _ _ _ _
      (pathJoin_ne_suffixed meta.directory meta.filename _)]
    exact lookupAssoc_removeAssoc_self fs.names _
  · intro hlt
    simp [LogRoller.should_rollover, hrot]
    omega

theorem write_create_failure_advances_state_witness :
    (LogRoller.write ⟨"d", "f", .SizeBased (.Bytes 10), none, none⟩
      ⟨1, 86400, "d/f", 12⟩ ⟨[("d/f", 0)], [(0, [1, 2])], 1⟩ ⟨false, 0⟩ [9]
      ⟨0, 0, true, false, .success⟩).res = .ok 1 := by
  have h := (write_create_failure_advances_state
    ⟨"d", "f", .SizeBased (.Bytes 10), none, none⟩ ⟨1, 86400, "d/f", 12⟩
    ⟨[("d/f", 0)], [(0, [1, 2])], 1⟩ ⟨false, 0⟩ [9] ⟨0, 0, true, false, .success⟩
    (.Bytes 10) 0 [1, 2] rfl (by decide) rfl rfl rfl rfl (by decide)
    (by decide)).2.2.2.1
  simpa using h

/-- C10: the size counter grows by the whole buffer length before the
underlying file write is attempted: the state after a write call does not
depend on the underlying write's outcome (error or short write included),
and whenever the call reaches the append step (its result is not a wrapped
rotation or recompute error) the final counter equals the pre-append
counter (0 after a rotation, the old counter otherwise) plus the buffer
length. -/
theorem write_counter_grows_regardless_of_underlying (meta : LogRollerMeta)
    (state : LogRollerState) (fs : FS) (lock : RwLockFile) (buf : List Nat)
    (o : WriteOracle) (u2 : UnderlyingWrite) :
    ((LogRoller.write meta state fs lock buf o).state =
      (LogRoller.write meta state fs lock buf { o with underlying := u2 }).state) ∧
    ((∀ e, (LogRoller.write meta state fs lock buf o).res ≠ .err (.other e)) →
      (LogRoller.write meta state fs lock buf o).state.curr_file_size_bytes =
        (if LogRoller.should_rollover meta state o.now = none then
          state.curr_file_size_bytes
        else 0) + buf.length) := by
  cases hso : LogRoller.should_rollover meta state o.now with
  | none =>
    constructor
    · simp only [LogRoller.write, hso]
      cases o.underlying <;> cases u2 <;> rfl
    · intro _
      simp only [LogRoller.write, hso, if_pos]
      cases o.underlying <;> simp [appendStep]
  | some tgt =>
    cases hrw : refresh_writer meta fs (unwrap_or_else_into_inner lock.get_mut)
        state.curr_file_path tgt o.renameOk o.createOk with
    | err e =>
      constructor
      · simp only [LogRoller.write, hso, hrw]
      · intro hne
        have hres : (LogRoller.write meta state fs lock buf o).res =
            .err (.other e) := by
          simp only [LogRoller.write, hso, hrw]
        exact absurd hres (hne e)
    | ok triple =>
      obtain ⟨fs1, w1, sp⟩ := triple
      cases hrot : meta.rotation with
      | SizeBased rs =>
        constructor
        · simp only [LogRoller.write, hso, hrw, hrot]
          cases o.underlying <;> cases u2 <;> rfl
        · intro _
          simp only [LogRoller.write, hso, hrw, hrot, hso]
          have : ¬ (some tgt = (none : Option String)) := by simp
          rw [if_neg this]
          cases o.underlying <;> simp [appendStep]
      | AgeBased age =>
        cases hnt : next_time o.now2 age with
        | err e =>
          constructor
          · simp only [LogRoller.write, hso, hrw, hrot, hnt, write_age_after_rotation]
          · intro hne
            have hres : (LogRoller.write meta state fs lock buf o).res =
                .err (.other e) := by
              simp only [LogRoller.write, hso, hrw, hrot, hnt, write_age_after_rotation]
            exact absurd hres (hne e)
        | ok t2 =>
          constructor
          · simp only [LogRoller.write, hso, hrw, hrot, hnt, write_age_after_rotation]
            cases o.underlying <;> cases u2 <;> rfl
          · intro _
            simp only [LogRoller.write, hso, hrw, hrot, hnt, write_age_after_rotation]
            have : ¬ (some tgt = (none : Option String)) := by simp
            rw [if_neg this]
            cases o.underlying <;> simp [appendStep]

theorem write_counter_grows_regardless_of_underlying_witness :
    (LogRoller.write ⟨"d", "f", .SizeBased (.Bytes 10), none, none⟩
      ⟨1, 86400, "d/f", 3⟩ ⟨[("d/f", 0)], [(0, [1, 2, 3])], 1⟩ ⟨false, 0⟩ [7, 8]
      ⟨0, 0, true, true, .ioFailure⟩).state.curr_file_size_bytes = 5 := by
  have hres : (LogRoller.write ⟨"d", "f", .SizeBased (.Bytes 10), none, none⟩
      ⟨1, 86400, "d/f", 3⟩ ⟨[("d/f", 0)], [(0, [1, 2, 3])], 1⟩ ⟨false, 0⟩ [7, 8]
      ⟨0, 0, true, true, .ioFailure⟩).res = .err .device := by decide
  have h := (write_counter_grows_regardless_of_underlying
    ⟨"d", "f", .SizeBased (.Bytes 10), none, none⟩ ⟨1, 86400, "d/f", 3⟩
    ⟨[("d/f", 0)], [(0, [1, 2, 3])], 1⟩ ⟨false, 0⟩ [7, 8]
    ⟨0, 0, true, true, .ioFailure⟩ .success).2 (by intro e; rw [hres]; simp)
  simpa using h

/-- C8: for every write and flush call, a lock poisoned by an abnormally
terminated holder is recovered through PoisonError::into_inner — the call
behaves exactly as with an unpoisoned lock holding the same handle (no
panic, no poisoning error), and the recovered value is that handle. -/
theorem write_flush_recover_poisoned_lock :
    (∀ (meta : LogRollerMeta) (state : LogRollerState) (fs : FS) (h : Nat)
      (buf : List Nat) (o : WriteOracle),
      LogRoller.write meta state fs ⟨true, h⟩ buf o =
        LogRoller.write meta state fs ⟨false, h⟩ buf o) ∧
    (∀ (h : Nat) (fo : Nat → RResult WriteIOErr Unit),
      LogRoller.flush ⟨true, h⟩ fo = LogRoller.flush ⟨false, h⟩ fo) ∧
    (∀ l : RwLockFile, unwrap_or_else_into_inner l.get_mut = l.handle) :=
  ⟨fun _ _ _ _ _ _ => rfl, fun _ _ => rfl, unwrap_get_mut⟩

/-- C7: in age-based mode a write call that performs a rotation factors
through write_age_after_rotation applied to the result of the deadline
recomputation, and when that recomputation returns an error the write call
returns exactly that error to the caller (next_age_based_time keeps its
stale value and no bytes are appended in that call). -/
theorem write_age_recompute_error_surfaces :
    (∀ (meta : LogRollerMeta) (state : LogRollerState) (fs : FS)
      (lock : RwLockFile) (buf : List Nat) (o : WriteOracle) (age : RotationAge),
      meta.rotation = .AgeBased age →
      state.next_age_based_time ≤ o.now →
      o.createOk = true →
      LogRoller.write meta state fs lock buf o =
        write_age_after_rotation
          ⟨state.next_size_based_index, state.next_age_based_time,
            get_next_age_based_log_path meta age state.next_age_based_time, 0⟩
          (fs.create_log_file
            (get_next_age_based_log_path meta age state.next_age_based_time)).1
          (fs.create_log_file
            (get_next_age_based_log_path meta age state.next_age_based_time)).2
          (some state.curr_file_path) buf o.underlying (next_time o.now2 age)) ∧
    (∀ (st : LogRollerState) (fs : FS) (h : Nat) (sp : Option String)
      (buf : List Nat) (u : UnderlyingWrite) (e : LogRollerError),
      (write_age_after_rotation st fs h sp buf u (.err e)).res = .err (.other e) ∧
      (write_age_after_rotation st fs h sp buf u (.err e)).state = st ∧
      (write_age_after_rotation st fs h sp buf u (.err e)).fs = fs) := by
  constructor
  · intro meta state fs lock buf o age hrot hdue hcr
    have hso : LogRoller.should_rollover meta state o.now =
        some (get_next_age_based_log_path meta age state.next_age_based_time) := by
      simp [LogRoller.should_rollover, hrot, hdue]
    simp only [LogRoller.write, hso, refresh_writer, hrot, hcr, if_true]
  · intro st fs h sp buf u e
    exact ⟨rfl, rfl, rfl⟩

theorem write_age_recompute_error_surfaces_witness :
    LogRoller.write ⟨"d", "f", .AgeBased .Daily, none, none⟩ ⟨1, 0, "d/x", 0⟩
      ⟨[], [], 0⟩ ⟨false, 0⟩ [5] ⟨0, 0, true, true, .success⟩ =
      write_age_after_rotation
        ⟨1, 0, get_next_age_based_log_path ⟨"d", "f", .AgeBased .Daily, none, none⟩
          .Daily 0, 0⟩
        (FS.create_log_file ⟨[], [], 0⟩
          (get_next_age_based_log_path ⟨"d", "f", .AgeBased .Daily, none, none⟩
            .Daily 0)).1
        (FS.create_log_file ⟨[], [], 0⟩
          (get_next_age_based_log_path ⟨"d", "f", .AgeBased .Daily, none, none⟩
            .Daily 0)).2
        (some "d/x") [5] .success (next_time 0 .Daily) := by
  exact write_age_recompute_error_surfaces.1
    ⟨"d", "f", .AgeBased .Daily, none, none⟩ ⟨1, 0, "d/x", 0⟩ ⟨[], [], 0⟩
    ⟨false, 0⟩ [5] ⟨0, 0, true, true, .success⟩ .Daily rfl (by decide) rfl

theorem suffixScanStep_none (fn : String) (acc : Nat) (e : String)
    (h : parsedSuffix fn e = none) : suffixScanStep fn acc e = acc := by
  simp [suffixScanStep, h]

theorem suffixScanStep_some (fn : String) (acc : Nat) (e : String) (n : Nat)
    (h : parsedSuffix fn e = some n) : suffixScanStep fn acc e = Nat.max acc n := by
  simp [suffixScanStep, h]

theorem foldl_suffixScan_le (fn : String) (l : List String) (acc : Nat) :
    acc ≤ l.foldl (suffixScanStep fn) acc := by
  induction l generalizing acc with
  | nil => exact Nat.le_refl acc
  | cons x l ih =>
    rw [List.foldl_cons]
    refine Nat.le_trans ?_ (ih (suffixScanStep fn acc x))
    cases hp : parsedSuffix fn x with
    | none => rw [suffixScanStep_none fn acc x hp]
    | some n =>
      rw [suffixScanStep_some fn acc x n hp]
      exact Nat.le_max_left acc n

theorem foldl_suffixScan_mem (fn : String) (l : List String) :
    ∀ (acc : Nat) (e : String) (n : Nat), e ∈ l → parsedSuffix fn e = some n →
      n ≤ l.foldl (suffixScanStep fn) acc := by
  induction l with
  | nil =>
    intro acc e n hmem
    cases hmem
  | cons x l ih =>
    intro acc e n hmem hp
    rw [List.foldl_cons]
    rcases List.mem_cons.mp hmem with h | h
    · subst h
      refine Nat.le_trans ?_ (foldl_suffixScan_le fn l (suffixScanStep fn acc e))
      rw [suffixScanStep_some fn acc e n hp]
      exact Nat.le_max_right acc n
    · exact ih (suffixScanStep fn acc x) e n h hp

theorem foldl_suffixScan_attained (fn : String) (l : List String) :
    ∀ acc : Nat, l.foldl (suffixScanStep fn) acc = acc ∨
      ∃ e ∈ l, parsedSuffix fn e = some (l.foldl (suffixScanStep fn) acc) := by
  induction l with
  | nil =>
    intro acc
    left
    rfl
  | cons x l ih =>
    intro acc
    rw [List.foldl_cons]
    rcases ih (suffixScanStep fn acc x) with h | h
    · rw [h]
      cases hp : parsedSuffix fn x with
      | none =>
        left
        exact suffixScanStep_none fn acc x hp
      | some n =>
        rw [suffixScanStep_some fn acc x n hp]
        rcases Nat.le_total n acc with hle | hle
        · left
          exact Nat.max_eq_left hle
        · right
          refine ⟨x, List.mem_cons_self x l, ?_⟩
          rw [hp]
          congr 1
          exact (Nat.max_eq_right hle).symm
    · right
      obtain ⟨e, he, hp⟩ := h
      exact ⟨e, List.mem_cons_of_mem x he, hp⟩

/-- C4 counterexample: with only the compressed segment d/f.2.gz on disk,
build in size mode seeds next suffix 1, not max-existing-suffix + 1 = 3:
the suffix of a compressed closed segment is not recovered by the scan,
contradicting the claim's "including when some closed segments have been
compressed". -/
theorem build_ignores_compressed_suffix_cex :
    build ⟨"d", "f", .SizeBased (.Bytes 10), some .Gzip, none⟩
        ⟨[("d/f.2.gz", 0)], [(0, [7])], 1⟩ ⟨0, true⟩ =
      .ok (⟨1, 86400, "d/f", 0⟩,
        ⟨[("d/f.2.gz", 0), ("d/f", 1)], [(0, [7]), (1, [])], 2⟩, ⟨false, 1⟩) ∧
    spec_max_existing_suffix
      (FS.dirEntries ⟨[("d/f.2.gz", 0)], [(0, [7])], 1⟩ "d") "f" + 1 = 3 ∧
    (1 : Nat) ≠ 3 :=
  ⟨by decide, by decide, by decide⟩

/-- C4 amended: at construction in size mode the next suffix is one more
than the largest integer parsed from directory entries literally named
filename.<integer> (1 when none parses; compressed segments filename.N.gz
do not parse as integers and are not counted, so suffixes may be reused
after a restart when the highest segments were all compressed), and the
size counter is seeded with the byte size of the pre-existing canonical
file (0 when it is absent). -/
theorem build_size_mode_seeds_state (meta : LogRollerMeta) (fs : FS)
    (o : BuildOracle) (st : LogRollerState) (fs2 : FS) (l : RwLockFile)
    (rs : RotationSize)
    (hrot : meta.rotation = .SizeBased rs)
    (hok : build meta fs o = .ok (st, fs2, l)) :
    st.next_size_based_index =
      get_next_size_based_index (fs.dirEntries meta.directory) meta.filename ∧
    (∀ n, suffixParsedIn (fs.dirEntries meta.directory) meta.filename n →
      n < st.next_size_based_index) ∧
    (st.next_size_based_index = 1 ∨
      suffixParsedIn (fs.dirEntries meta.directory) meta.filename
        (st.next_size_based_index - 1)) ∧
    st.curr_file_size_bytes =
      get_curr_size_based_file_size fs (pathJoin meta.directory meta.filename) ∧
    (fs.contentOf (pathJoin meta.directory meta.filename) = none →
      st.curr_file_size_bytes = 0) ∧
    (∀ c, fs.contentOf (pathJoin meta.directory meta.filename) = some c →
      st.curr_file_size_bytes = c.length) := by
  have hst : st =
      ⟨get_next_size_based_index (fs.dirEntries meta.directory) meta.filename,
        floor_to_granularity .Daily (o.now + granularity_unit_seconds .Daily),
        get_curr_log_path meta o.now,
        get_curr_size_based_file_size fs (pathJoin meta.directory meta.filename)⟩ := by
    cases hcr : o.createOk with
    | false => simp [build, hrot, next_time_eq_floor, hcr] at hok
    | true =>
      simp only [build, hrot, next_time_eq_floor, hcr, if_true, RResult.ok.injEq,
        Prod.mk.injEq] at hok
      exact hok.1.symm
  subst hst
  refine ⟨rfl, ?_, ?_, rfl, ?_, ?_⟩
  · intro n hn
    obtain ⟨e, he, hp⟩ := hn
    have := foldl_suffixScan_mem meta.filename (fs.dirEntries meta.directory) 0 e n he hp
    simp only [get_next_size_based_index]
    omega
  · rcases foldl_suffixScan_attained meta.filename (fs.dirEntries meta.directory) 0
        with h | h
    · left
      simp only [get_next_size_based_index, h]
    · right
      obtain ⟨e, he, hp⟩ := h
      refine ⟨e, he, ?_⟩
      simp only [get_next_size_based_index, Nat.add_sub_cancel]
      exact hp
  · intro h
    simp [get_curr_size_based_file_size, h]
  · intro c h
    simp [get_curr_size_based_file_size, h]

theorem build_size_mode_seeds_state_witness :
    get_next_size_based_index
      (FS.dirEntries ⟨[("d/f.3", 0), ("d/f", 1)], [(0, [1]), (1, [1, 2])], 2⟩ "d")
      "f" = 4 := by
  have h := (build_size_mode_seeds_state ⟨"d", "f", .SizeBased (.Bytes 10), none, none⟩
    ⟨[("d/f.3", 0), ("d/f", 1)], [(0, [1]), (1, [1, 2])], 2⟩ ⟨0, true⟩
    ⟨4, 86400, "d/f", 2⟩ ⟨[("d/f.3", 0), ("d/f", 1)], [(0, [1]), (1, [1, 2])], 2⟩
    ⟨false, 1⟩ (.Bytes 10) rfl (by decide)).1
  exact h.symm

/-- C5: for every closed segment handed to compression with Gzip
configured, the plain file is deleted only after the complete encoding has
been written at path.gz (success leaves exactly the .gz file, holding the
encoding of the original content), on any I/O failure the plain file is
still present with its original content, and every other configured
algorithm is a silent no-op returning success and leaving the filesystem
untouched. -/
theorem compress_gzip_safety_and_others_noop :
    (∀ (fs : PFS) (o : GzOracle) (p : String) (c : Content),
      lookupAssoc fs p = some c →
      (∀ e, (compress (some .Gzip) p fs o).2 = .err e →
        lookupAssoc (compress (some .Gzip) p fs o).1 p = some c) ∧
      ((compress (some .Gzip) p fs o).2 = .ok () →
        lookupAssoc (compress (some .Gzip) p fs o).1 p = none ∧
        lookupAssoc (compress (some .Gzip) p fs o).1 (p ++ ".gz") =
          some (.gzipOf c))) ∧
    (∀ (alg : Compression), alg ≠ .Gzip →
      ∀ (fs : PFS) (o : GzOracle) (p : String),
        compress (some alg) p fs o = (fs, .ok ())) := by
  constructor
  · intro fs o p c hc
    obtain ⟨op, cr, cp, fin, rm⟩ := o
    cases op <;> cases cr <;> cases cp <;> cases fin <;> cases rm <;>
      refine ⟨fun e he => ?_, fun hok => ?_⟩ <;>
      simp_all [compress, lookupAssoc_setAssoc_self, lookupAssoc_removeAssoc_self,
        lookupAssoc_setAssoc_ne _ _ _ _ (append_gz_ne_self p),
        lookupAssoc_removeAssoc_ne _ _ _ (Ne.symm (append_gz_ne_self p))]
  · intro alg hne fs o p
    cases alg
    case Gzip => exact absurd rfl hne
    all_goals rfl

theorem compress_gzip_safety_and_others_noop_witness :
    lookupAssoc (compress (some .Gzip) "x" [("x", Content.bytes [1, 2])]
      ⟨true, true, true, true, true⟩).1 "x" = none := by
  exact ((compress_gzip_safety_and_others_noop.1 [("x", Content.bytes [1, 2])]
    ⟨true, true, true, true, true⟩ "x" (Content.bytes [1, 2]) (by decide)).2
    (by decide)).1

/-- C6: for every prune run with retention limit K configured, the regular
files matching the rotation mode's naming pattern are sorted by filesystem
creation time ascending (a stable sort); with fewer than K matches nothing
is attempted; with at least K matches, removal is attempted on exactly the
oldest (count - K) of them — the attempted list does not depend on which
removals succeed, so a failed removal (only logged) does not stop the
rest — each attempted file's creation time is at most every survivor's, and
the K survivors of the sort order are exactly the most recently created
matches. -/
theorem prune_retention (files : List DirEntryMeta) (filename : String)
    (rotation : Rotation) (keep : Nat) (removeOk : String → Bool) :
    ((files.filter
        (fun f => f.is_file && prune_file_pattern filename rotation f.name)).length <
        keep →
      prune files filename rotation (some keep) removeOk = ⟨[], [], .ok ()⟩) ∧
    (keep ≤ (files.filter
        (fun f => f.is_file && prune_file_pattern filename rotation f.name)).length →
      (prune files filename rotation (some keep) removeOk).result = .ok () ∧
      (prune files filename rotation (some keep) removeOk).attempted =
        ((List.insertionSort createdLE
          (files.filter
            (fun f => f.is_file && prune_file_pattern filename rotation f.name))).take
          ((files.filter
            (fun f => f.is_file && prune_file_pattern filename rotation f.name)).length -
            keep)).map (fun f => f.name) ∧
      (prune files filename rotation (some keep) removeOk).attempted.length =
        (files.filter
          (fun f => f.is_file && prune_file_pattern filename rotation f.name)).length -
          keep ∧
      (prune files filename rotation (some keep) removeOk).deleted =
        (prune files filename rotation (some keep) removeOk).attempted.filter
          removeOk ∧
      (List.insertionSort createdLE
        (files.filter
          (fun f => f.is_file && prune_file_pattern filename rotation f.name))).Perm
        (files.filter
          (fun f => f.is_file && prune_file_pattern filename rotation f.name)) ∧
      ((List.insertionSort createdLE
        (files.filter
          (fun f => f.is_file && prune_file_pattern filename rotation f.name))).drop
        ((files.filter
          (fun f => f.is_file && prune_file_pattern filename rotation f.name)).length -
          keep)).length = keep ∧
      (∀ a ∈ (List.insertionSort createdLE
          (files.filter
            (fun f => f.is_file && prune_file_pattern filename rotation f.name))).take
          ((files.filter
            (fun f => f.is_file && prune_file_pattern filename rotation f.name)).length -
            keep),
       ∀ b ∈ (List.insertionSort createdLE
          (files.filter
            (fun f => f.is_file && prune_file_pattern filename rotation f.name))).drop
          ((files.filter
            (fun f => f.is_file && prune_file_pattern filename rotation f.name)).length -
            keep),
        a.created ≤ b.created)) := by
  constructor
  · intro hlt
    simp only [prune]
    rw [if_pos hlt]
  · intro hge
    have hnotlt : ¬ (files.filter
        (fun f => f.is_file && prune_file_pattern filename rotation f.name)).length <
        keep := Nat.not_lt.mpr hge
    have hperm := List.perm_insertionSort createdLE
      (files.filter (fun f => f.is_file && prune_file_pattern filename rotation f.name))
    have hlen := hperm.length_eq
    simp only [prune]
    rw [if_neg hnotlt]
    refine ⟨rfl, rfl, ?_, rfl, hperm, ?_, ?_⟩
    · rw [List.length_map, List.length_take]
      omega
    · rw [List.length_drop]
      omega
    · intro a ha b hb
      exact (List.sorted_insertionSort createdLE
        (files.filter
          (fun f => f.is_file &&
            prune_file_pattern filename rotation f.name))).rel_of_mem_take_of_mem_drop
        ha hb

theorem prune_retention_witness :
    (prune [⟨"f.1", 10, true⟩, ⟨"f.2", 5, true⟩, ⟨"f.3", 20, true⟩] "f"
      (.SizeBased (.Bytes 1)) (some 2) (fun _ => true)).attempted = ["f.2"] := by
  have h := ((prune_retention
    [⟨"f.1", 10, true⟩, ⟨"f.2", 5, true⟩, ⟨"f.3", 20, true⟩] "f"
    (.SizeBased (.Bytes 1)) 2 (fun _ => true)).2 (by decide)).2.1
  rw [h]
  decide

end Logroller
